import Mathlib

/-!
# CosmicBulkMap: verification of the dipole distance-modulus core

Shallow embedding of the numerical core of `notebooks/example_analysis.ipynb`:
the function `dipole_mu_physical` (background distance modulus plus a dipolar
modulation) and the sky-map synthesis `dipole_map` (the dipole deviation field
evaluated at the center direction of each cell of a spherical tessellation).

External collaborators (astropy's background cosmology `cosmo.distmod`, the
angular-separation computation of `SkyCoord.separation`, and the healpy
tessellation) are modelled at the boundaries the notebook consumes:
the background model as an abstract function `ℝ → ℝ` (and `ℝ → Option ℝ`
where its failure matters), the angular separation as the mathematical
great-circle angle (arccos of the dot product of the two unit direction
vectors, which is what `SkyCoord.separation` computes up to floating point),
and the tessellation as the list of its cell-center directions.
Sky directions are `(longitude, latitude)` pairs in degrees, as in the
notebook's Galactic frame.
-/

noncomputable section

/-- Degrees to radians, as applied by `u.deg` before any trigonometry. -/
def deg2rad (x : ℝ) : ℝ := x * Real.pi / 180

/-- Unit 3-vector of a sky direction given as (longitude, latitude) in degrees. -/
def dirVec (l b : ℝ) : ℝ × ℝ × ℝ :=
  (Real.cos (deg2rad b) * Real.cos (deg2rad l),
   Real.cos (deg2rad b) * Real.sin (deg2rad l),
   Real.sin (deg2rad b))

/-- Euclidean dot product on ℝ³ (as nested pairs). -/
def dot3 (u v : ℝ × ℝ × ℝ) : ℝ := u.1 * v.1 + u.2.1 * v.2.1 + u.2.2 * v.2.2

/-- Great-circle angular separation between two sky directions given in
degrees, in radians: `SkyCoord.separation(...).rad` of the notebook.
Modelled as the arccosine of the spherical law of cosines. -/
def separation (l1 b1 l2 b2 : ℝ) : ℝ :=
  Real.arccos (Real.sin (deg2rad b1) * Real.sin (deg2rad b2) +
    Real.cos (deg2rad b1) * Real.cos (deg2rad b2) *
      Real.cos (deg2rad l1 - deg2rad l2))

/-- The antipode of a sky direction in degrees: longitude shifted by 180°,
latitude negated. -/
def antipode (l b : ℝ) : ℝ × ℝ := (l + 180, -b)

/-- `dipole_mu_physical` from the notebook. The background cosmology
(`cosmo.distmod(z).value` in the source, an astropy `FlatLambdaCDM`) is the
abstract collaborator `distmod`. Arguments follow the source:
`(z, A, l0, b0, l_sn, b_sn)`; the angle is
`sn_coords.separation(dipole_coord)` and the result is
`mu_cosmo + (A * np.cos(angle))`. -/
def dipole_mu_physical (distmod : ℝ → ℝ) (z A l0 b0 l_sn b_sn : ℝ) : ℝ :=
  distmod z + A * Real.cos (separation l_sn b_sn l0 b0)

/-- `dipole_mu_physical` with a background model that may fail
(`Option`-valued `distmod`). The source evaluates `cosmo.distmod(z)`
unconditionally as its first step, with no redshift validation of its own,
so a background failure propagates and a background success flows into
`mu_cosmo + (A * np.cos(angle))`. -/
def dipole_mu_physicalM (distmod : ℝ → Option ℝ) (z A l0 b0 l_sn b_sn : ℝ) :
    Option ℝ :=
  (distmod z).map
    (fun mu => mu + A * Real.cos (separation l_sn b_sn l0 b0))

/-- The sky-map synthesis of the notebook: for each cell-center direction of
the tessellation (healpy's `pix2ang` output, an external collaborator, given
here as the list `cells` of (l, b) pairs in degrees), the value
`amp_dipole * np.cos(angle)` where `angle` is
`dipole_coord.separation(pixel_coords)`. -/
def dipole_map (amp l0 b0 : ℝ) (cells : List (ℝ × ℝ)) : List ℝ :=
  cells.map (fun c => amp * Real.cos (separation l0 b0 c.1 c.2))

/-- The spherical law of cosines expression is the dot product of the two
unit direction vectors. -/
theorem dot3_dirVec (l1 b1 l2 b2 : ℝ) :
    dot3 (dirVec l1 b1) (dirVec l2 b2)
      = Real.sin (deg2rad b1) * Real.sin (deg2rad b2) +
        Real.cos (deg2rad b1) * Real.cos (deg2rad b2) *
          Real.cos (deg2rad l1 - deg2rad l2) := by
  simp only [dot3, dirVec, Real.cos_sub]
  ring

/-- Algebraic core of the Cauchy–Schwarz bound for the spherical law of
cosines: with `(a, b)` and `(c, d)` on the unit circle and `t ∈ [-1, 1]`,
the quantity `a*c + b*d*t` has square at most 1. -/
theorem dot_sq_le_one (a b c d t : ℝ) (h1 : a ^ 2 + b ^ 2 = 1)
    (h2 : c ^ 2 + d ^ 2 = 1) (h3 : t ^ 2 ≤ 1) :
    (a * c + b * d * t) ^ 2 ≤ 1 := by
  have key : (a * c + b * d * t) ^ 2 + (a * d * t - b * c) ^ 2
      = c ^ 2 + (d * t) ^ 2 := by
    have e : (a * c + b * d * t) ^ 2 + (a * d * t - b * c) ^ 2
        = (a ^ 2 + b ^ 2) * (c ^ 2 + (d * t) ^ 2) := by ring
    rw [e, h1, one_mul]
  nlinarith [key, sq_nonneg (a * d * t - b * c),
    mul_nonneg (sq_nonneg d) (sub_nonneg.mpr h3)]

/-- A real with square at most 1 lies in [-1, 1]. -/
theorem bounds_of_sq_le_one (x : ℝ) (h : x ^ 2 ≤ 1) : -1 ≤ x ∧ x ≤ 1 := by
  constructor <;> nlinarith [sq_nonneg (x + 1), sq_nonneg (x - 1)]

/-- The square of the dot product of two unit direction vectors is at most 1. -/
theorem dot3_dirVec_sq_le_one (l1 b1 l2 b2 : ℝ) :
    dot3 (dirVec l1 b1) (dirVec l2 b2) ^ 2 ≤ 1 := by
  rw [dot3_dirVec]
  exact dot_sq_le_one _ _ _ _ _ (Real.sin_sq_add_cos_sq _)
    (Real.sin_sq_add_cos_sq _) (Real.cos_sq_le_one _)

/-- The dot product of two unit direction vectors is at least -1. -/
theorem neg_one_le_dot (l1 b1 l2 b2 : ℝ) :
    -1 ≤ dot3 (dirVec l1 b1) (dirVec l2 b2) :=
  (bounds_of_sq_le_one _ (dot3_dirVec_sq_le_one l1 b1 l2 b2)).1

/-- The dot product of two unit direction vectors is at most 1. -/
theorem dot_le_one (l1 b1 l2 b2 : ℝ) :
    dot3 (dirVec l1 b1) (dirVec l2 b2) ≤ 1 :=
  (bounds_of_sq_le_one _ (dot3_dirVec_sq_le_one l1 b1 l2 b2)).2

/-- The cosine of the angular separation recovers the dot product of the
unit direction vectors. -/
theorem cos_separation (l1 b1 l2 b2 : ℝ) :
    Real.cos (separation l1 b1 l2 b2) = dot3 (dirVec l1 b1) (dirVec l2 b2) := by
  rw [separation, ← dot3_dirVec,
    Real.cos_arccos (neg_one_le_dot l1 b1 l2 b2) (dot_le_one l1 b1 l2 b2)]

/-- Claim C1: for every redshift, amplitude and pair of directions,
`dipole_mu_physical` returns exactly `mu_cosmo(z) + A * cos(theta)`, where
`theta` is the great-circle separation between the target direction and the
dipole direction, a value in [0, π] radians. -/
theorem dipole_mu_physical_spec (distmod : ℝ → ℝ) (z A l0 b0 l_sn b_sn : ℝ) :
    dipole_mu_physical distmod z A l0 b0 l_sn b_sn
      = distmod z + A * Real.cos (separation l_sn b_sn l0 b0)
    ∧ 0 ≤ separation l_sn b_sn l0 b0 ∧ separation l_sn b_sn l0 b0 ≤ Real.pi :=
  ⟨rfl, Real.arccos_nonneg _, Real.arccos_le_pi _⟩

/-- Claim C2, counterexample: the core does not reject negative redshift.
At z = -1 with a background model that succeeds everywhere and amplitude 0,
evaluation succeeds and returns exactly the background model's value at -1:
the negative redshift reaches the background model and no `InvalidInput`
failure is raised by the core. -/
theorem dipole_mu_negz_counterexample :
    (-1 : ℝ) < 0 ∧
    dipole_mu_physicalM (fun _ => some 37) (-1) 0 275 56 150 2 = some 37 := by
  refine ⟨by norm_num, ?_⟩
  simp [dipole_mu_physicalM]

/-- Claim C2, amended: the core performs no redshift validation of its own;
a negative z is passed unchanged to the background model, whose failure
propagates and whose success flows into `mu + A * cos(theta)`. -/
theorem dipole_mu_physicalM_no_validation (distmod : ℝ → Option ℝ)
    (z A l0 b0 l_sn b_sn : ℝ) (hz : z < 0) :
    (distmod z = none →
      dipole_mu_physicalM distmod z A l0 b0 l_sn b_sn = none)
    ∧ ∀ mu, distmod z = some mu →
        dipole_mu_physicalM distmod z A l0 b0 l_sn b_sn
          = some (mu + A * Real.cos (separation l_sn b_sn l0 b0)) := by
  constructor
  · intro h
    simp [dipole_mu_physicalM, h]
  · intro mu h
    simp [dipole_mu_physicalM, h]

/-- Witness for the amended Claim C2, at z = -1. -/
theorem dipole_mu_physicalM_no_validation_witness :
    (((fun _ : ℝ => (some 37 : Option ℝ)) (-1) = none) →
      dipole_mu_physicalM (fun _ => some 37) (-1) 1 275 56 150 2 = none)
    ∧ ∀ mu, (fun _ : ℝ => (some 37 : Option ℝ)) (-1) = some mu →
        dipole_mu_physicalM (fun _ => some 37) (-1) 1 275 56 150 2
          = some (mu + 1 * Real.cos (separation 150 2 275 56)) :=
  dipole_mu_physicalM_no_validation (fun _ => some 37) (-1) 1 275 56 150 2
    (by norm_num)

/-- Claim C3: every cell of the synthesized sky map holds
`amp * cos(theta)` alone, where `theta` is the separation between that
cell's center direction and the dipole direction; `mu_cosmo` appears in no
map value (`dipole_map` does not even consume a background model). -/
theorem dipole_map_cell (amp l0 b0 : ℝ) (cells : List (ℝ × ℝ)) (i : ℕ)
    (h : i < cells.length) :
    (dipole_map amp l0 b0 cells).get ⟨i, by simpa [dipole_map] using h⟩
      = amp * Real.cos
          (separation l0 b0 (cells.get ⟨i, h⟩).1 (cells.get ⟨i, h⟩).2) := by
  simp [dipole_map]

/-- Witness for Claim C3, on a one-cell tessellation. -/
theorem dipole_map_cell_witness :
    (dipole_map 0.05 275 56 [((150 : ℝ), (2 : ℝ))]).get
        ⟨0, by simp [dipole_map]⟩
      = 0.05 * Real.cos
          (separation 275 56
            (([((150 : ℝ), (2 : ℝ))].get ⟨0, by norm_num⟩).1)
            (([((150 : ℝ), (2 : ℝ))].get ⟨0, by norm_num⟩).2)) :=
  dipole_map_cell 0.05 275 56 [((150 : ℝ), (2 : ℝ))] 0 (by norm_num)

/-- Claim C4: when the target direction equals the dipole direction the
separation is 0 and `dipole_mu_physical` returns exactly
`mu_cosmo(z) + A`, for every background model, redshift, amplitude and
direction (in particular for A = 0.05 and direction (l, b) = (275°, 56°)). -/
theorem dipole_mu_physical_at_dipole (distmod : ℝ → ℝ) (z A l0 b0 : ℝ) :
    separation l0 b0 l0 b0 = 0
    ∧ dipole_mu_physical distmod z A l0 b0 l0 b0 = distmod z + A := by
  have harg : Real.sin (deg2rad b0) * Real.sin (deg2rad b0) +
      Real.cos (deg2rad b0) * Real.cos (deg2rad b0) *
        Real.cos (deg2rad l0 - deg2rad l0) = 1 := by
    rw [sub_self, Real.cos_zero, mul_one]
    linear_combination Real.sin_sq_add_cos_sq (deg2rad b0)
  have hsep : separation l0 b0 l0 b0 = 0 := by
    rw [separation, harg, Real.arccos_one]
  refine ⟨hsep, ?_⟩
  rw [dipole_mu_physical, hsep, Real.cos_zero, mul_one]

/-- Claim C5: for every direction, the separation to its antipode is
exactly π, and the dipole term there is exactly `-amp`, with no
special-casing anywhere in the definitions. -/
theorem dipole_term_at_antipode (amp l0 b0 : ℝ) :
    separation l0 b0 (antipode l0 b0).1 (antipode l0 b0).2 = Real.pi
    ∧ amp * Real.cos (separation l0 b0 (antipode l0 b0).1 (antipode l0 b0).2)
        = -amp := by
  have e1 : deg2rad (-b0) = -deg2rad b0 := by unfold deg2rad; ring
  have e2 : deg2rad l0 - deg2rad (l0 + 180) = -Real.pi := by
    unfold deg2rad; ring
  have harg : Real.sin (deg2rad b0) * Real.sin (deg2rad (-b0)) +
      Real.cos (deg2rad b0) * Real.cos (deg2rad (-b0)) *
        Real.cos (deg2rad l0 - deg2rad (l0 + 180)) = -1 := by
    rw [e1, e2, Real.sin_neg, Real.cos_neg, Real.cos_neg, Real.cos_pi]
    linear_combination -Real.sin_sq_add_cos_sq (deg2rad b0)
  have hsep : separation l0 b0 (antipode l0 b0).1 (antipode l0 b0).2
      = Real.pi := by
    rw [antipode, separation, harg, Real.arccos_neg_one]
  refine ⟨hsep, ?_⟩
  rw [hsep, Real.cos_pi, mul_neg_one]

/-- Claim C6: the deviation from the background is odd in the amplitude:
negating A negates `dipole_mu_physical - mu_cosmo`. -/
theorem dipole_mu_sign_symmetry (distmod : ℝ → ℝ) (z A l0 b0 l_sn b_sn : ℝ) :
    dipole_mu_physical distmod z A l0 b0 l_sn b_sn - distmod z
      = -(dipole_mu_physical distmod z (-A) l0 b0 l_sn b_sn - distmod z) := by
  unfold dipole_mu_physical
  ring

/-- Claim C7: for a background model strictly increasing on positive
redshifts, `dipole_mu_physical` is strictly increasing in z (all other
arguments fixed). -/
theorem dipole_mu_strict_mono (distmod : ℝ → ℝ) (A l0 b0 l_sn b_sn z1 z2 : ℝ)
    (hmono : ∀ a b : ℝ, 0 < a → a < b → distmod a < distmod b)
    (h1 : 0 < z1) (h12 : z1 < z2) :
    dipole_mu_physical distmod z1 A l0 b0 l_sn b_sn
      < dipole_mu_physical distmod z2 A l0 b0 l_sn b_sn := by
  unfold dipole_mu_physical
  have := hmono z1 z2 h1 h12
  linarith

/-- Witness for Claim C7, with the identity background model and z = 1 < 2. -/
theorem dipole_mu_strict_mono_witness :
    dipole_mu_physical (fun x => x) 1 0.05 275 56 150 2
      < dipole_mu_physical (fun x => x) 2 0.05 275 56 150 2 :=
  dipole_mu_strict_mono (fun x => x) 0.05 275 56 150 2 1 2
    (fun _ _ _ hab => hab) (by norm_num) (by norm_num)

/-- Claim C8: `dipole_mu_physical` is a pure function of its arguments and
the (fixed) background model: any two evaluations on identical inputs yield
identical results. -/
theorem dipole_mu_deterministic (dm1 dm2 : ℝ → ℝ)
    (z1 z2 A1 A2 l01 l02 b01 b02 ls1 ls2 bs1 bs2 : ℝ)
    (hdm : dm1 = dm2) (hz : z1 = z2) (hA : A1 = A2) (hl0 : l01 = l02)
    (hb0 : b01 = b02) (hls : ls1 = ls2) (hbs : bs1 = bs2) :
    dipole_mu_physical dm1 z1 A1 l01 b01 ls1 bs1
      = dipole_mu_physical dm2 z2 A2 l02 b02 ls2 bs2 := by
  rw [hdm, hz, hA, hl0, hb0, hls, hbs]

/-- Witness for Claim C8, at the notebook's toy parameters. -/
theorem dipole_mu_deterministic_witness :
    dipole_mu_physical (fun x => x) 0.021 0.05 275 56 150 2
      = dipole_mu_physical (fun x => x) 0.021 0.05 275 56 150 2 :=
  dipole_mu_deterministic (fun x => x) (fun x => x)
    0.021 0.021 0.05 0.05 275 275 56 56 150 150 2 2
    rfl rfl rfl rfl rfl rfl rfl

/-- The sum of the sky-map values equals the amplitude times the dot product
of the dipole's unit vector with the sum of the cells' unit vectors. -/
theorem dipole_map_sum_eq (amp l0 b0 : ℝ) (cells : List (ℝ × ℝ)) :
    (dipole_map amp l0 b0 cells).sum
      = amp * dot3 (dirVec l0 b0)
          ((cells.map (fun c => dirVec c.1 c.2)).sum) := by
  induction cells with
  | nil => simp [dipole_map, dot3]
  | cons c cs ih =>
    have hadd : ∀ w s : ℝ × ℝ × ℝ, dot3 (dirVec l0 b0) (w + s)
        = dot3 (dirVec l0 b0) w + dot3 (dirVec l0 b0) s := by
      intro w s
      simp only [dot3, Prod.fst_add, Prod.snd_add]
      ring
    simp only [dipole_map, List.map_cons, List.sum_cons] at ih ⊢
    rw [cos_separation, ih, hadd]
    ring

/-- Claim C9: on a tessellation whose cell-center unit vectors sum to zero
(as the equal-area pixelization's do, by its symmetry), the plain mean of the
sky-map values is zero, for every amplitude and dipole direction. -/
theorem dipole_map_zero_mean (amp l0 b0 : ℝ) (cells : List (ℝ × ℝ))
    (hne : cells ≠ [])
    (hsym : (cells.map (fun c => dirVec c.1 c.2)).sum = 0) :
    (dipole_map amp l0 b0 cells).sum
      / ((dipole_map amp l0 b0 cells).length : ℝ) = 0 := by
  rw [dipole_map_sum_eq, hsym]
  simp [dot3]

/-- Witness for Claim C9, on the two-cell tessellation of a direction and
its antipode. -/
theorem dipole_map_zero_mean_witness :
    ([((0 : ℝ), (0 : ℝ)), ((180 : ℝ), (0 : ℝ))] ≠ ([] : List (ℝ × ℝ)))
    ∧ (([((0 : ℝ), (0 : ℝ)), ((180 : ℝ), (0 : ℝ))].map
          (fun c => dirVec c.1 c.2)).sum = 0)
    ∧ (dipole_map 0.05 275 56 [((0 : ℝ), (0 : ℝ)), ((180 : ℝ), (0 : ℝ))]).sum
        / ((dipole_map 0.05 275 56
              [((0 : ℝ), (0 : ℝ)), ((180 : ℝ), (0 : ℝ))]).length : ℝ) = 0 := by
  have e0 : deg2rad 0 = 0 := by unfold deg2rad; ring
  have e180 : deg2rad 180 = Real.pi := by unfold deg2rad; ring
  have hne : ([((0 : ℝ), (0 : ℝ)), ((180 : ℝ), (0 : ℝ))]
      ≠ ([] : List (ℝ × ℝ))) := by simp
  have hsym : (([((0 : ℝ), (0 : ℝ)), ((180 : ℝ), (0 : ℝ))].map
      (fun c => dirVec c.1 c.2)).sum = 0) := by
    simp [dirVec, e0, e180, Prod.ext_iff]
  exact ⟨hne, hsym, dipole_map_zero_mean 0.05 275 56 _ hne hsym⟩

/-- Claim C10: the dipole deviation is bounded by the amplitude: the
difference between `dipole_mu_physical` and the background modulus has
absolute value at most |A|, and every value of the synthesized sky map lies
in [-|A|, |A|]. -/
theorem dipole_deviation_bounded (distmod : ℝ → ℝ) (z A l0 b0 l_sn b_sn : ℝ)
    (cells : List (ℝ × ℝ)) :
    |dipole_mu_physical distmod z A l0 b0 l_sn b_sn - distmod z| ≤ |A|
    ∧ ∀ x ∈ dipole_map A l0 b0 cells, -|A| ≤ x ∧ x ≤ |A| := by
  have hbound : ∀ t : ℝ, |A * Real.cos t| ≤ |A| := by
    intro t
    rw [abs_mul]
    calc |A| * |Real.cos t| ≤ |A| * 1 :=
          mul_le_mul_of_nonneg_left (Real.abs_cos_le_one t) (abs_nonneg A)
      _ = |A| := mul_one _
  constructor
  · unfold dipole_mu_physical
    rw [add_sub_cancel_left]
    exact hbound _
  · intro x hx
    simp only [dipole_map, List.mem_map] at hx
    obtain ⟨c, _, rfl⟩ := hx
    exact abs_le.mp (hbound _)

/-- Witness for Claim C10, at the notebook's toy parameters with a one-cell
tessellation. -/
theorem dipole_deviation_bounded_witness :
    |dipole_mu_physical (fun x => x) 0.021 0.05 275 56 150 2
        - (fun x : ℝ => x) 0.021| ≤ |(0.05 : ℝ)|
    ∧ (-|(0.05 : ℝ)| ≤ 0.05 * Real.cos (separation 275 56 150 2)
        ∧ 0.05 * Real.cos (separation 275 56 150 2) ≤ |(0.05 : ℝ)|) := by
  have h := dipole_deviation_bounded (fun x => x) 0.021 0.05 275 56 150 2
    [((150 : ℝ), (2 : ℝ))]
  refine ⟨h.1, h.2 (0.05 * Real.cos (separation 275 56 150 2)) ?_⟩
  simp [dipole_map]

end
